import Mathlib

/-!
Verification of the verb core of arquero-query (src/query/verb.js).

The file shallowly embeds the JavaScript code: JS runtime values become the
mutual inductive `Value` family, fallible code returns `Except VerbError`,
and the external collaborators (table engine, catalog, expression parser)
become function parameters. The utility module src/query/util.js and the
tree serializer src/query/to-ast.js are imported by verb.js but are not part
of the available sources; those functions are modelled from the spec and say
so in their doc comments. Everything else is translated from verb.js.
-/

set_option autoImplicit false

namespace ArqueroQuery

/-- Error taxonomy of the spec (section 7). The source has no error classes;
each constructor names one distinct failure point of the code: a registry
lookup miss in `Verb.from` (the code dereferences the missing entry and
throws), a failed catalog lookup in `getTable`, an expression without source
text during tree serialization, mismatched join key lists during
normalization, and a generic runtime type error (for example calling `map`
on a non-array). -/
inductive VerbError where
  | unknownVerb : VerbError
  | unresolvedTable : VerbError
  | unparsableExpression : VerbError
  | mismatchedJoinArity : VerbError
  | typeError : VerbError
deriving DecidableEq, Repr

mutual
/-- A JavaScript runtime value as used by the verb module: the JSON scalars,
arrays and records, plus the two opaque forms the spec cares about — a
callable (`func`, carrying its retrievable source text when it has one) and
a live table handle (`table`, carrying the table name). -/
inductive Value where
  | undef : Value
  | null : Value
  | bool (b : Bool) : Value
  | num (n : Int) : Value
  | str (s : String) : Value
  | list (vs : Varr) : Value
  | obj (fs : Vobj) : Value
  | func (src : Option String) : Value
  | table (name : String) : Value

/-- A JS array of values. -/
inductive Varr where
  | nil : Varr
  | cons (v : Value) (vs : Varr) : Varr

/-- A JS record: ordered key and value pairs, first key wins on lookup. -/
inductive Vobj where
  | nil : Vobj
  | cons (key : String) (v : Value) (fs : Vobj) : Vobj
end

namespace Varr

/-- Length of a JS array. -/
def length : Varr → Nat
  | .nil => 0
  | .cons _ vs => 1 + vs.length

end Varr

namespace Vobj

/-- Property read `fs[key]`: the first binding wins, a missing key reads as
`undefined`, exactly as in JS. -/
def get : Vobj → String → Value
  | .nil, _ => .undef
  | .cons k v fs, key => if k == key then v else fs.get key

/-- Whether the record has a binding for `key`. -/
def hasKey : Vobj → String → Bool
  | .nil, _ => false
  | .cons k _ fs, key => k == key || fs.hasKey key

end Vobj

namespace Value

/-- The JS test `value === undefined`. -/
def isUndef : Value → Bool
  | .undef => true
  | _ => false

/-- Whether the value is a JS array. -/
def isList : Value → Bool
  | .list _ => true
  | _ => false

/-- Property read `value[key]` returning `undefined` on non-records. -/
def objGet : Value → String → Value
  | .obj fs, key => fs.get key
  | _, _ => .undef

end Value

/-- Parameter kinds, from the constants imported by verb.js
(src/query/constants.js, names as in the import list). -/
inductive ParamType where
  | Expr : ParamType
  | ExprList : ParamType
  | ExprNumber : ParamType
  | ExprObject : ParamType
  | JoinKeys : ParamType
  | JoinValues : ParamType
  | Options : ParamType
  | OrderbyKeys : ParamType
  | TableRef : ParamType
  | TableRefList : ParamType
deriving DecidableEq, Repr, BEq

/-- One field descriptor of a verb schema, as the schema literals in verb.js
use them: a parameter name, a parameter kind, an optional default (reading
`s.default` of a descriptor without one yields `undefined` in JS, hence the
`Value.undef` default), and the optional `props` sub-kind map. -/
structure FieldSchema where
  name : String
  type : ParamType
  default : Value := Value.undef
  props : List (String × ParamType) := []

/-- The canonical join spec shape produced by the normalizers:
a record with a left list and a right list. -/
def canon (l r : Varr) : Value :=
  .obj (.cons "left" (.list l) (.cons "right" (.list r) .nil))

/-- Case of `joinKeys` for array input. Modelled from the spec (section 4.1):
a two element array whose elements are both arrays gives independent left
and right lists and errors when their lengths differ; any other array is a
list of names used for both sides. -/
def joinKeysList (vs : Varr) : Except VerbError Value :=
  match vs with
  | .cons (.list l) (.cons (.list r) .nil) =>
    if l.length == r.length then .ok (canon l r)
    else .error .mismatchedJoinArity
  | _ => .ok (canon vs vs)

/-- The array test: the elements of an array value, `none` otherwise. -/
def asList : Value → Option Varr
  | .list l => some l
  | _ => none

/-- The canonical-record test: the left and right lists of a record whose
left and right properties are both arrays, and `none` otherwise. -/
def joinPass (fs : Vobj) : Option (Varr × Varr) :=
  match asList (fs.get "left"), asList (fs.get "right") with
  | some l, some r => some (l, r)
  | _, _ => none

/-- Case of `joinKeys` for record input. Modelled from the spec (sections
4.2 and 4.4): deserialized join specs are already in canonical form and are
fed back through the constructor path, so a record whose left and right
properties are lists passes through (still checking the arity invariant);
any other record is a single expression used for both sides. -/
def joinKeysObj (fs : Vobj) : Except VerbError Value :=
  match joinPass fs with
  | some (l, r) =>
    if l.length == r.length then .ok (.obj fs)
    else .error .mismatchedJoinArity
  | none => .ok (canon (.cons (.obj fs) .nil) (.cons (.obj fs) .nil))

/-- Modelled from the spec: `joinKeys` of src/query/util.js (section 4.1,
`normalizeJoinKeys`). A single name or expression is used for both sides; an
array is handled by `joinKeysList`; a record by `joinKeysObj`; nullish input
passes through so that absent parameters stay absent. -/
def joinKeys : Value → Except VerbError Value
  | .undef => .ok .undef
  | .null => .ok .null
  | .list vs => joinKeysList vs
  | .obj fs => joinKeysObj fs
  | v => .ok (canon (.cons v .nil) (.cons v .nil))

/-- Case of `joinValues` for record input. Modelled from the spec (section
4.1): as `joinKeysObj`, except that a record that is not a canonical
left and right pair is the combined post-join projection map and passes
through unchanged. -/
def joinValuesObj (fs : Vobj) : Except VerbError Value :=
  match joinPass fs with
  | some (l, r) =>
    if l.length == r.length then .ok (.obj fs)
    else .error .mismatchedJoinArity
  | none => .ok (.obj fs)

/-- Modelled from the spec: `joinValues` of src/query/util.js (section 4.1,
`normalizeJoinValues`): the same shape rules as `joinKeys` plus the combined
projection map case for records. -/
def joinValues : Value → Except VerbError Value
  | .undef => .ok .undef
  | .null => .ok .null
  | .list vs => joinKeysList vs
  | .obj fs => joinValuesObj fs
  | v => .ok (canon (.cons v .nil) (.cons v .nil))

/-- An ascending orderby key node. -/
def ascNode (e : Value) : Value :=
  .obj (.cons "expr" e (.cons "direction" (.str "asc") .nil))

/-- A descending orderby key node. -/
def descNode (e : Value) : Value :=
  .obj (.cons "expr" e (.cons "direction" (.str "desc") .nil))

/-- Normalization of a single orderby key. Modelled from the spec (section
4.1): a string with a leading minus sign is a descending column name; a
record already carrying expr and direction properties is canonical and
passes through; anything else is an ascending key. -/
def orderbyKey (v : Value) : Value :=
  match v with
  | .str s =>
    match s.data with
    | '-' :: rest => descNode (.str (String.mk rest))
    | _ => ascNode (.str s)
  | .obj fs =>
    if fs.hasKey "expr" && fs.hasKey "direction" then .obj fs
    else ascNode (.obj fs)
  | v => ascNode v

/-- Elementwise `orderbyKey` over an array. -/
def orderbyKeyA : Varr → Varr
  | .nil => .nil
  | .cons v vs => .cons (orderbyKey v) (orderbyKeyA vs)

/-- Modelled from the spec: `orderbyKeys` of src/query/util.js (section 4.1,
`normalizeOrderbyKeys`): a single key or a list of keys becomes an ordered
list of expr and direction nodes; nullish input passes through. -/
def orderbyKeys : Value → Value
  | .undef => .undef
  | .null => .null
  | .list vs => .list (orderbyKeyA vs)
  | v => .list (.cons (orderbyKey v) .nil)

mutual
/-- Modelled from the spec: `toObject` of src/query/util.js (section 4.4).
The verb method calls it with only the stored value, so it dispatches on the
runtime shape of the value: a live table handle serializes to its name
string only, a callable to a descriptor record carrying its source text
(`null` when it has none), arrays and records serialize recursively, and
scalars pass through. -/
def toObjectV : Value → Value
  | .table n => .str n
  | .func (some t) => .obj (.cons "expr" (.str t) .nil)
  | .func none => .obj (.cons "expr" .null .nil)
  | .list vs => .list (toObjectA vs)
  | .obj fs => .obj (toObjectO fs)
  | v => v

/-- Elementwise `toObjectV` over an array. -/
def toObjectA : Varr → Varr
  | .nil => .nil
  | .cons v vs => .cons (toObjectV v) (toObjectA vs)

/-- Valuewise `toObjectV` over a record. -/
def toObjectO : Vobj → Vobj
  | .nil => .nil
  | .cons k v fs => .cons k (toObjectV v) (toObjectO fs)
end

mutual
/-- Modelled from the spec: `fromObject` of src/query/util.js (section 4.4).
Deserialization rebuilds the value structure: arrays and records are
reconstructed element by element, expression descriptors stay in descriptor
form (one of the expression representations of section 3, retaining their
source text), and join and orderby specs are rebuilt directly since they are
already canonical. Structurally the rebuilt value equals its input. -/
def fromObjectV : Value → Value
  | .list vs => .list (fromObjectA vs)
  | .obj fs => .obj (fromObjectO fs)
  | v => v

/-- Elementwise `fromObjectV` over an array. -/
def fromObjectA : Varr → Varr
  | .nil => .nil
  | .cons v vs => .cons (fromObjectV v) (fromObjectA vs)

/-- Valuewise `fromObjectV` over a record. -/
def fromObjectO : Vobj → Vobj
  | .nil => .nil
  | .cons k v fs => .cons k (fromObjectV v) (fromObjectO fs)
end

/-- Whether a record is exactly the serialized descriptor of the given
callable: one `expr` binding holding the source text, or `null` for a
callable without source text. -/
def descrMatch : Option String → Vobj → Bool
  | some t, .cons k (.str t2) .nil => k == "expr" && t == t2
  | none, .cons k .null .nil => k == "expr"
  | _, _ => false

mutual
/-- Semantic equivalence of values underlying the round-trip law: equal
shapes are compared componentwise, a live table handle is equivalent to its
name string, and a callable is equivalent to its serialized descriptor.
These are exactly the identifications the spec makes when it says a
round-tripped verb evaluates identically although object identity of nested
structures need not match. -/
def equivB : Value → Value → Bool
  | .undef, .undef => true
  | .null, .null => true
  | .bool a, .bool b => a == b
  | .num a, .num b => a == b
  | .str a, .str b => a == b
  | .table a, .table b => a == b
  | .table a, .str b => a == b
  | .str a, .table b => a == b
  | .func a, .func b => a == b
  | .func a, .obj fs => descrMatch a fs
  | .obj fs, .func a => descrMatch a fs
  | .list as, .list bs => equivA as bs
  | .obj fs, .obj gs => equivO fs gs
  | _, _ => false

/-- Elementwise equivalence of arrays. -/
def equivA : Varr → Varr → Bool
  | .nil, .nil => true
  | .cons a as, .cons b bs => equivB a b && equivA as bs
  | _, _ => false

/-- Keywise equivalence of records. -/
def equivO : Vobj → Vobj → Bool
  | .nil, .nil => true
  | .cons k v fs, .cons k2 v2 gs => k == k2 && equivB v v2 && equivO fs gs
  | _, _ => false
end

/-- Elementwise equivalence of parameter lists. -/
def equivL : List Value → List Value → Bool
  | [], [] => true
  | a :: as, b :: bs => equivB a b && equivL as bs
  | _, _ => false

mutual
/-- Pure data check for the safety claim: `true` exactly when the value
contains, recursively, no live table handle and no callable — only scalars,
arrays and records. -/
def pureDataB : Value → Bool
  | .func _ => false
  | .table _ => false
  | .list vs => pureDataA vs
  | .obj fs => pureDataO fs
  | _ => true

/-- Elementwise purity of arrays. -/
def pureDataA : Varr → Bool
  | .nil => true
  | .cons v vs => pureDataB v && pureDataA vs

/-- Valuewise purity of records. -/
def pureDataO : Vobj → Bool
  | .nil => true
  | .cons _ v fs => pureDataB v && pureDataO fs
end

/-- A catalog: the external name to table resolver of the spec (section 6),
returning `none` when it has no table for the name. -/
def Catalog : Type := String → Option Value

/-- Modelled from the spec: `getTable` of src/query/util.js (section 4.3).
The stored value for a table reference is a name string or a live handle
(whose name is used); the catalog resolves the name, and an unresolvable
reference fails with `unresolvedTable`. -/
def getTable (catalog : Catalog) : Value → Except VerbError Value
  | .table n =>
    match catalog n with
    | some t => .ok t
    | none => .error .unresolvedTable
  | .str n =>
    match catalog n with
    | some t => .ok t
    | none => .error .unresolvedTable
  | _ => .error .unresolvedTable

/-- Error-propagating map over a list, mirroring how a JS exception inside
`schema.map` aborts the whole method. -/
def mapExcept {α β : Type} (f : α → Except VerbError β) : List α → Except VerbError (List β)
  | [] => .ok []
  | a :: as =>
    match f a with
    | .error e => .error e
    | .ok b =>
      match mapExcept f as with
      | .error e => .error e
      | .ok bs => .ok (b :: bs)

/-- Error-propagating map over a JS array. -/
def mapExceptA (f : Value → Except VerbError Value) : Varr → Except VerbError Varr
  | .nil => .ok .nil
  | .cons v vs =>
    match f v with
    | .error e => .error e
    | .ok b =>
      match mapExceptA f vs with
      | .error e => .error e
      | .ok bs => .ok (.cons b bs)

/-- The `value.map(t => getTable(catalog, t))` step of `Verb.evaluate` for a
table-ref-list field: elementwise catalog resolution of an array; calling
`map` on a non-array throws in JS, embedded as `typeError`. -/
def mapTables (catalog : Catalog) (value : Value) : Except VerbError Value :=
  match value with
  | .list vs =>
    match mapExceptA (getTable catalog) vs with
    | .ok ts => .ok (.list ts)
    | .error e => .error e
  | _ => .error .typeError

/-- The kind-dispatch of the constructor (verb.js lines 40 to 45): the
ternary chain `type === JoinKeys ? joinKeys(param) : type === JoinValues ?
joinValues(param) : type === OrderbyKeys ? orderbyKeys(param) : param`.
Normalization may throw, hence the `Except`. -/
def normalizeParam (type : ParamType) (param : Value) : Except VerbError Value :=
  if type = ParamType.JoinKeys then joinKeys param
  else if type = ParamType.JoinValues then joinValues param
  else if type = ParamType.OrderbyKeys then .ok (orderbyKeys param)
  else .ok param

/-- One constructor step for a field (verb.js line 46):
`this[s.name] = value !== undefined ? value : s.default`. -/
def storeField (s : FieldSchema) (param : Value) : Except VerbError Value :=
  match normalizeParam s.type param with
  | .error e => .error e
  | .ok value => .ok (if value.isUndef then s.default else value)

/-- The `schema.forEach((s, index) => ...)` loop of the constructor, walking
the schema and the positional parameters together; `params[index]` beyond
the end of the array reads as `undefined` in JS. -/
def constructFields : List FieldSchema → List Value → Except VerbError (List (String × Value))
  | [], _ => .ok []
  | s :: ss, params =>
    match storeField s (params.headD .undef) with
    | .error e => .error e
    | .ok value =>
      match constructFields ss params.tail with
      | .error e => .error e
      | .ok rest => .ok ((s.name, value) :: rest)

/-- A constructed verb instance: the verb name, the schema, and the fields
the constructor assigned onto the instance (`this[s.name] = ...`), kept in
schema order. -/
structure Verb where
  verb : String
  schema : List FieldSchema
  fields : List (String × Value)

/-- First-match lookup in an assignment list, `undefined` when absent. -/
def lookupF : List (String × Value) → String → Value
  | [], _ => .undef
  | f :: fs, name => if f.1 == name then f.2 else lookupF fs name

/-- The property read `this[name]` on a verb instance. -/
def Verb.get (v : Verb) (name : String) : Value :=
  lookupF v.fields name

/-- The `Verb` constructor (verb.js lines 36 to 48). -/
def Verb.construct (verb : String) (schema : List FieldSchema := []) (params : List Value := []) : Except VerbError Verb :=
  match constructFields schema params with
  | .error e => .error e
  | .ok fields => .ok ⟨verb, schema, fields⟩

/-- A verb class as produced by `createVerb` (verb.js lines 110 to 119): the
verb name closed over by the subclass constructor together with the static
`schema` value assigned onto the class. -/
structure VerbClass where
  name : String
  schema : List FieldSchema

/-- The `createVerb(name, schema)` factory (verb.js line 110); a class made
without a schema carries the empty one, matching the `schema = []` default
of the `Verb` constructor and the `Type.schema || []` read in `Verb.from`. -/
def createVerb (name : String) (schema : List FieldSchema := []) : VerbClass :=
  ⟨name, schema⟩

/-- Instantiation `new Type(...params)`: the subclass constructor calls
`super(name, schema, params)`. -/
def VerbClass.new (T : VerbClass) (params : List Value) : Except VerbError Verb :=
  Verb.construct T.name T.schema params

/-- The exported verb constructors of verb.js (lines 121 to 228), with their
schema literals. `Except` is renamed `ExceptVerb` because Lean reserves the
source name. -/
def Reify : VerbClass := createVerb "reify"

/-- Count verb (options). -/
def Count : VerbClass := createVerb "count" [⟨"options", .Options, .undef, []⟩]

/-- Dedupe verb (keys, default empty list). -/
def Dedupe : VerbClass := createVerb "dedupe" [⟨"keys", .ExprList, .list .nil, []⟩]

/-- Derive verb (values). -/
def Derive : VerbClass := createVerb "derive" [⟨"values", .ExprObject, .undef, []⟩]

/-- Filter verb (criteria). -/
def Filter : VerbClass := createVerb "filter" [⟨"criteria", .ExprObject, .undef, []⟩]

/-- Groupby verb (keys). -/
def Groupby : VerbClass := createVerb "groupby" [⟨"keys", .ExprList, .undef, []⟩]

/-- Orderby verb (keys). -/
def Orderby : VerbClass := createVerb "orderby" [⟨"keys", .OrderbyKeys, .undef, []⟩]

/-- Rollup verb (values). -/
def Rollup : VerbClass := createVerb "rollup" [⟨"values", .ExprObject, .undef, []⟩]

/-- Sample verb (size, options with an expression-valued weight). -/
def Sample : VerbClass := createVerb "sample"
  [⟨"size", .ExprNumber, .undef, []⟩, ⟨"options", .Options, .undef, [("weight", .Expr)]⟩]

/-- Select verb (columns). -/
def Select : VerbClass := createVerb "select" [⟨"columns", .ExprList, .undef, []⟩]

/-- Ungroup verb (no parameters). -/
def Ungroup : VerbClass := createVerb "ungroup"

/-- Unorder verb (no parameters). -/
def Unorder : VerbClass := createVerb "unorder"

/-- Fold verb (values, options). -/
def Fold : VerbClass := createVerb "fold"
  [⟨"values", .ExprList, .undef, []⟩, ⟨"options", .Options, .undef, []⟩]

/-- Pivot verb (keys, values, options). -/
def Pivot : VerbClass := createVerb "pivot"
  [⟨"keys", .ExprList, .undef, []⟩, ⟨"values", .ExprList, .undef, []⟩, ⟨"options", .Options, .undef, []⟩]

/-- Spread verb (values, options). -/
def Spread : VerbClass := createVerb "spread"
  [⟨"values", .ExprList, .undef, []⟩, ⟨"options", .Options, .undef, []⟩]

/-- Unroll verb (values, options with an expression-list drop). -/
def Unroll : VerbClass := createVerb "unroll"
  [⟨"values", .ExprList, .undef, []⟩, ⟨"options", .Options, .undef, [("drop", .ExprList)]⟩]

/-- Lookup verb (table, on, values). -/
def Lookup : VerbClass := createVerb "lookup"
  [⟨"table", .TableRef, .undef, []⟩, ⟨"on", .JoinKeys, .undef, []⟩, ⟨"values", .ExprList, .undef, []⟩]

/-- Join verb (table, on, values, options). -/
def Join : VerbClass := createVerb "join"
  [⟨"table", .TableRef, .undef, []⟩, ⟨"on", .JoinKeys, .undef, []⟩,
   ⟨"values", .JoinValues, .undef, []⟩, ⟨"options", .Options, .undef, []⟩]

/-- Cross verb (table, values, options). -/
def Cross : VerbClass := createVerb "cross"
  [⟨"table", .TableRef, .undef, []⟩, ⟨"values", .JoinValues, .undef, []⟩, ⟨"options", .Options, .undef, []⟩]

/-- Semijoin verb (table, on). -/
def Semijoin : VerbClass := createVerb "semijoin"
  [⟨"table", .TableRef, .undef, []⟩, ⟨"on", .JoinKeys, .undef, []⟩]

/-- Antijoin verb (table, on). -/
def Antijoin : VerbClass := createVerb "antijoin"
  [⟨"table", .TableRef, .undef, []⟩, ⟨"on", .JoinKeys, .undef, []⟩]

/-- Concat verb (tables). -/
def Concat : VerbClass := createVerb "concat" [⟨"tables", .TableRefList, .undef, []⟩]

/-- Union verb (tables). -/
def Union : VerbClass := createVerb "union" [⟨"tables", .TableRefList, .undef, []⟩]

/-- Intersect verb (tables). -/
def Intersect : VerbClass := createVerb "intersect" [⟨"tables", .TableRefList, .undef, []⟩]

/-- Except verb (tables); named `ExceptVerb` here because Lean reserves the
source name `Except`. -/
def ExceptVerb : VerbClass := createVerb "except" [⟨"tables", .TableRefList, .undef, []⟩]

/-- The `Verbs` lookup table of verb classes (verb.js lines 233 to 258),
keyed by verb name, in source order. `Reify` is exported by the module but
not registered here, exactly as in the source. -/
def Verbs : List (String × VerbClass) := [
  ("count", Count),
  ("dedupe", Dedupe),
  ("derive", Derive),
  ("filter", Filter),
  ("groupby", Groupby),
  ("orderby", Orderby),
  ("rollup", Rollup),
  ("sample", Sample),
  ("select", Select),
  ("ungroup", Ungroup),
  ("unorder", Unorder),
  ("fold", Fold),
  ("pivot", Pivot),
  ("spread", Spread),
  ("unroll", Unroll),
  ("lookup", Lookup),
  ("join", Join),
  ("cross", Cross),
  ("semijoin", Semijoin),
  ("antijoin", Antijoin),
  ("concat", Concat),
  ("union", Union),
  ("intersect", Intersect),
  ("except", ExceptVerb)]

/-- The property read `Verbs[name]`, `none` when the name is not a key. -/
def verbsFind (n : String) : Option VerbClass :=
  (Verbs.find? (fun e => e.1 == n)).map (fun e => e.2)

/-- The static method `Verb.from(object)` (verb.js lines 56 to 61): look up
the class by the `verb` discriminator, deserialize each schema field of the
plain object, and instantiate. A miss in the registry makes the code
dereference `Type.schema` on `undefined` and throw, embedded as the
`unknownVerb` error of the spec taxonomy. -/
def Verb.from (object : Value) : Except VerbError Verb :=
  match object.objGet "verb" with
  | .str name =>
    match verbsFind name with
    | some T => T.new (T.schema.map (fun s => fromObjectV (object.objGet s.name)))
    | none => .error .unknownVerb
  | _ => .error .unknownVerb

/-- Conversion of the assignments `obj[name] = ...` into a record. -/
def fieldsToVobj : List (String × Value) → Vobj
  | [] => .nil
  | f :: fs => .cons f.1 f.2 (fieldsToVobj fs)

/-- The method `Verb.toObject` (verb.js lines 85 to 91): the record with the
`verb` discriminator followed by each schema field serialized by the utility
`toObject`. -/
def Verb.toObject (v : Verb) : Value :=
  .obj (.cons "verb" (.str v.verb) (fieldsToVobj (v.schema.map (fun s => (s.name, toObjectV (v.get s.name))))))

/-- The method `Verb.evaluate(table, catalog)` (verb.js lines 70 to 78). The
external table is opaque beyond having a method per verb name, so it is
embedded as the function `invoke`, with `invoke v.verb params` standing for
`table[this.verb](...params)`. Each parameter is resolved by kind exactly as
the ternary chain in the source does. -/
def Verb.evaluate (v : Verb) (invoke : String → List Value → Value) (catalog : Catalog) : Except VerbError Value :=
  match mapExcept (fun s =>
    let value := v.get s.name
    if s.type = ParamType.TableRef then getTable catalog value
    else if s.type = ParamType.TableRefList then mapTables catalog value
    else .ok value) v.schema with
  | .error e => .error e
  | .ok params => .ok (invoke v.verb params)

/-- JS exception propagation through a sub-serialization: evaluate the step
and continue with its value, or let the thrown error escape. -/
def bindE {α β : Type} (x : Except VerbError α) (f : α → Except VerbError β) : Except VerbError β :=
  match x with
  | .error e => .error e
  | .ok a => f a

/-- Modelled from the spec: the expression leaf case of src/query/to-ast.js
(section 4.5). A bare property name is a trivial accessor expression and is
parsed like any other source text; a callable is parsed from its attached
source text and fails with `unparsableExpression` when it has none; a
descriptor record is parsed from its `expr` source text; literals pass
through as literal nodes. `parse` is the external expression parser. -/
def exprToAST (parse : String → Value) : Value → Except VerbError Value
  | .str s => .ok (parse s)
  | .func (some t) => .ok (parse t)
  | .func none => .error .unparsableExpression
  | .obj fs =>
    match fs.get "expr" with
    | .str t => .ok (parse t)
    | _ => .error .unparsableExpression
  | v => .ok v

/-- Elementwise `exprToAST` over an array. -/
def astExprA (parse : String → Value) : Varr → Except VerbError Varr
  | .nil => .ok .nil
  | .cons v vs =>
    bindE (exprToAST parse v) (fun a =>
      bindE (astExprA parse vs) (fun as => .ok (.cons a as)))

/-- Valuewise `exprToAST` over a record. -/
def astExprO (parse : String → Value) : Vobj → Except VerbError Vobj
  | .nil => .ok .nil
  | .cons k v fs =>
    bindE (exprToAST parse v) (fun a =>
      bindE (astExprO parse fs) (fun as => .ok (.cons k a as)))

/-- Tree form of one canonical orderby key: the expr leaf is parsed, the
direction is kept as a literal. -/
def astOrderKey (parse : String → Value) (v : Value) : Except VerbError Value :=
  match v with
  | .obj fs =>
    bindE (exprToAST parse (fs.get "expr")) (fun a =>
      .ok (.obj (.cons "expr" a (.cons "direction" (fs.get "direction") .nil))))
  | v => exprToAST parse v

/-- Elementwise `astOrderKey` over an array. -/
def astOrderA (parse : String → Value) : Varr → Except VerbError Varr
  | .nil => .ok .nil
  | .cons v vs =>
    bindE (astOrderKey parse v) (fun a =>
      bindE (astOrderA parse vs) (fun as => .ok (.cons a as)))

/-- Tree form of a join spec record: list-valued properties (the canonical
left and right lists) have each leaf parsed, other properties are parsed as
single expressions. -/
def astJoinO (parse : String → Value) : Vobj → Except VerbError Vobj
  | .nil => .ok .nil
  | .cons k (.list vs) fs =>
    bindE (astExprA parse vs) (fun as =>
      bindE (astJoinO parse fs) (fun rest => .ok (.cons k (.list as) rest)))
  | .cons k v fs =>
    bindE (exprToAST parse v) (fun a =>
      bindE (astJoinO parse fs) (fun rest => .ok (.cons k a rest)))

/-- A table reference as a plain name-literal node: no live resolution
happens during tree serialization. -/
def tableNameV : Value → Value
  | .table n => .str n
  | v => v

/-- Elementwise `tableNameV` over an array. -/
def tableNameA : Varr → Varr
  | .nil => .nil
  | .cons v vs => .cons (tableNameV v) (tableNameA vs)

/-- Tree form of an expression-valued sub-option declared in `props`
(the source declares only expression and expression-list sub-kinds). -/
def subToAST (parse : String → Value) (value : Value) (type : ParamType) : Except VerbError Value :=
  match type with
  | .ExprList =>
    match value with
    | .undef => .ok .undef
    | .null => .ok .null
    | .list vs => bindE (astExprA parse vs) (fun as => .ok (.list as))
    | v => exprToAST parse v
  | _ => exprToAST parse value

/-- Tree form of an option bag: each option is parsed as an expression when
`props` declares a sub-kind for it and is kept as a literal otherwise. -/
def astOptionsO (parse : String → Value) (props : List (String × ParamType)) : Vobj → Except VerbError Vobj
  | .nil => .ok .nil
  | .cons k v fs =>
    bindE (match props.lookup k with
           | some t => subToAST parse v t
           | none => .ok v) (fun a =>
      bindE (astOptionsO parse props fs) (fun rest => .ok (.cons k a rest)))

/-- Modelled from the spec: `toAST` of src/query/to-ast.js (section 4.5),
dispatching on the parameter kind exactly as the verb method call
`toAST(this[name], type, props)` requires. The only failure is
`unparsableExpression`, for an expression without retrievable source. -/
def toASTV (parse : String → Value) (value : Value) (type : ParamType) (props : List (String × ParamType)) : Except VerbError Value :=
  match type with
  | .Expr => exprToAST parse value
  | .ExprNumber =>
    match value with
    | .num n => .ok (.num n)
    | v => exprToAST parse v
  | .ExprList =>
    match value with
    | .undef => .ok .undef
    | .null => .ok .null
    | .list vs => bindE (astExprA parse vs) (fun as => .ok (.list as))
    | v => exprToAST parse v
  | .ExprObject =>
    match value with
    | .undef => .ok .undef
    | .null => .ok .null
    | .obj fs => bindE (astExprO parse fs) (fun rest => .ok (.obj rest))
    | v => exprToAST parse v
  | .Options =>
    match value with
    | .obj fs => bindE (astOptionsO parse props fs) (fun rest => .ok (.obj rest))
    | v => .ok v
  | .JoinKeys | .JoinValues =>
    match value with
    | .undef => .ok .undef
    | .null => .ok .null
    | .obj fs => bindE (astJoinO parse fs) (fun rest => .ok (.obj rest))
    | v => exprToAST parse v
  | .OrderbyKeys =>
    match value with
    | .undef => .ok .undef
    | .null => .ok .null
    | .list vs => bindE (astOrderA parse vs) (fun as => .ok (.list as))
    | v => exprToAST parse v
  | .TableRef => .ok (tableNameV value)
  | .TableRefList =>
    match value with
    | .list vs => .ok (.list (tableNameA vs))
    | v => .ok (tableNameV v)

/-- The method `Verb.toAST` (verb.js lines 101 to 107): the record with the
`verb` discriminator and each schema field tree-serialized with its kind and
sub-kind map. -/
def Verb.toAST (v : Verb) (parse : String → Value) : Except VerbError Value :=
  bindE (mapExcept (fun s =>
      bindE (toASTV parse (v.get s.name) s.type s.props) (fun a => .ok (s.name, a))) v.schema)
    (fun fs => .ok (.obj (.cons "verb" (.str v.verb) (fieldsToVobj fs))))

/-- One external call on a constructed verb instance, with the collaborators
that call needs. -/
inductive VerbOp where
  | evaluateOp (invoke : String → List Value → Value) (catalog : Catalog) : VerbOp
  | toObjectOp : VerbOp
  | toASTOp (parse : String → Value) : VerbOp

/-- The embedding of one method call as a state transformer on the instance:
the call returns its result together with the post-call state of the verb.
The bodies of `evaluate`, `toObject` and `toAST` in the source contain no
assignment to `this` (the only field writes of the class are in the
constructor), so the translated post-state is the instance the method read. -/
def Verb.applyOp (v : Verb) : VerbOp → (Except VerbError Value) × Verb
  | .evaluateOp invoke catalog => (v.evaluate invoke catalog, v)
  | .toObjectOp => (.ok v.toObject, v)
  | .toASTOp parse => (v.toAST parse, v)

/-- Sequential execution of any number of method calls, threading the
instance state. -/
def runOps (v : Verb) : List VerbOp → Verb
  | [] => v
  | op :: ops => runOps (v.applyOp op).2 ops

mutual
/-- Deserialization rebuilds a structurally equal value. -/
theorem fromObjectV_id : ∀ v : Value, fromObjectV v = v
  | .undef => rfl
  | .null => rfl
  | .bool _ => rfl
  | .num _ => rfl
  | .str _ => rfl
  | .func _ => rfl
  | .table _ => rfl
  | .list vs => by simp [fromObjectV, fromObjectA_id vs]
  | .obj fs => by simp [fromObjectV, fromObjectO_id fs]

/-- Deserialization rebuilds a structurally equal array. -/
theorem fromObjectA_id : ∀ vs : Varr, fromObjectA vs = vs
  | .nil => rfl
  | .cons v vs => by simp [fromObjectA, fromObjectV_id v, fromObjectA_id vs]

/-- Deserialization rebuilds a structurally equal record. -/
theorem fromObjectO_id : ∀ fs : Vobj, fromObjectO fs = fs
  | .nil => rfl
  | .cons k v fs => by simp [fromObjectO, fromObjectV_id v, fromObjectO_id fs]
end

/-- Serialization keeps the undefined test: only `undefined` serializes to
`undefined`. -/
theorem isUndef_toObjectV (v : Value) : (toObjectV v).isUndef = v.isUndef := by
  cases v <;> first
    | rfl
    | (rename_i o; cases o <;> rfl)

/-- Serialization keeps arrayness: a value serializes to an array exactly
when it is one. -/
theorem isList_toObjectV (v : Value) : (toObjectV v).isList = v.isList := by
  cases v <;> first
    | rfl
    | (rename_i o; cases o <;> rfl)

/-- Serialization keeps array length. -/
theorem length_toObjectA : ∀ vs : Varr, (toObjectA vs).length = vs.length
  | .nil => rfl
  | .cons v vs => by simp [toObjectA, Varr.length, length_toObjectA vs]

/-- Serialization of a record serializes each property in place. -/
theorem get_toObjectO : ∀ (fs : Vobj) (k : String), (toObjectO fs).get k = toObjectV (fs.get k)
  | .nil, _ => rfl
  | .cons k2 v fs, k => by
    simp only [toObjectO, Vobj.get]
    by_cases h : (k2 == k) = true <;> simp [h, get_toObjectO fs k]

/-- Serialization of a record keeps its key set. -/
theorem hasKey_toObjectO : ∀ (fs : Vobj) (k : String), (toObjectO fs).hasKey k = fs.hasKey k
  | .nil, _ => rfl
  | .cons k2 v fs, k => by simp [toObjectO, Vobj.hasKey, hasKey_toObjectO fs k]

mutual
/-- Value equivalence is reflexive. -/
theorem equivB_refl : ∀ v : Value, equivB v v = true
  | .undef => rfl
  | .null => rfl
  | .bool _ => by simp [equivB]
  | .num _ => by simp [equivB]
  | .str _ => by simp [equivB]
  | .func _ => by simp [equivB]
  | .table _ => by simp [equivB]
  | .list vs => by simp [equivB, equivA_refl vs]
  | .obj fs => by simp [equivB, equivO_refl fs]

/-- Array equivalence is reflexive. -/
theorem equivA_refl : ∀ vs : Varr, equivA vs vs = true
  | .nil => rfl
  | .cons v vs => by simp [equivA, equivB_refl v, equivA_refl vs]

/-- Record equivalence is reflexive. -/
theorem equivO_refl : ∀ fs : Vobj, equivO fs fs = true
  | .nil => rfl
  | .cons k v fs => by simp [equivO, equivB_refl v, equivO_refl fs]
end

mutual
/-- The serialized form of a value is equivalent to the value: this is the
identification the round-trip law evaluates through. -/
theorem equivB_toObjectV : ∀ v : Value, equivB (toObjectV v) v = true
  | .undef => rfl
  | .null => rfl
  | .bool _ => by simp [toObjectV, equivB]
  | .num _ => by simp [toObjectV, equivB]
  | .str _ => by simp [toObjectV, equivB]
  | .func (some t) => by simp [toObjectV, equivB, descrMatch]
  | .func none => by simp [toObjectV, equivB, descrMatch]
  | .table _ => by simp [toObjectV, equivB]
  | .list vs => by simp [toObjectV, equivB, equivA_toObjectA vs]
  | .obj fs => by simp [toObjectV, equivB, equivO_toObjectO fs]

/-- The serialized form of an array is elementwise equivalent to it. -/
theorem equivA_toObjectA : ∀ vs : Varr, equivA (toObjectA vs) vs = true
  | .nil => rfl
  | .cons v vs => by simp [toObjectA, equivA, equivB_toObjectV v, equivA_toObjectA vs]

/-- The serialized form of a record is valuewise equivalent to it. -/
theorem equivO_toObjectO : ∀ fs : Vobj, equivO (toObjectO fs) fs = true
  | .nil => rfl
  | .cons k v fs => by simp [toObjectO, equivO, equivB_toObjectV v, equivO_toObjectO fs]
end

mutual
/-- Serialized values are pure data: no live table handle and no callable
survives `toObject`. -/
theorem pureDataB_toObjectV : ∀ v : Value, pureDataB (toObjectV v) = true
  | .undef => rfl
  | .null => rfl
  | .bool _ => rfl
  | .num _ => rfl
  | .str _ => rfl
  | .func (some _) => rfl
  | .func none => rfl
  | .table _ => rfl
  | .list vs => by simp [toObjectV, pureDataB, pureDataA_toObjectA vs]
  | .obj fs => by simp [toObjectV, pureDataB, pureDataO_toObjectO fs]

/-- Serialized arrays are elementwise pure data. -/
theorem pureDataA_toObjectA : ∀ vs : Varr, pureDataA (toObjectA vs) = true
  | .nil => rfl
  | .cons v vs => by simp [toObjectA, pureDataA, pureDataB_toObjectV v, pureDataA_toObjectA vs]

/-- Serialized records are valuewise pure data. -/
theorem pureDataO_toObjectO : ∀ fs : Vobj, pureDataO (toObjectO fs) = true
  | .nil => rfl
  | .cons k v fs => by simp [toObjectO, pureDataO, pureDataB_toObjectV v, pureDataO_toObjectO fs]
end

/-- A value whose undefined test holds is `undefined`. -/
theorem isUndef_eq {v : Value} (h : v.isUndef = true) : v = .undef := by
  cases v <;> simp [Value.isUndef] at h ⊢

/-- Serialization keeps the array test, mapping the elements. -/
theorem asList_toObjectV (v : Value) : asList (toObjectV v) = (asList v).map toObjectA := by
  cases v <;> first
    | rfl
    | (rename_i o; cases o <;> rfl)

/-- An array test success names the elements. -/
theorem asList_eq_some {v : Value} {l : Varr} (h : asList v = some l) : v = .list l := by
  cases v <;> simp [asList] at h
  simp [h]

/-- Serialization commutes with the canonical-record test. -/
theorem joinPass_toObjectO (fs : Vobj) :
    joinPass (toObjectO fs) = (joinPass fs).map (fun p => (toObjectA p.1, toObjectA p.2)) := by
  simp only [joinPass, get_toObjectO fs, asList_toObjectV]
  cases asList (fs.get "left") <;> cases asList (fs.get "right") <;> simp

/-- A canonical-record test success names the two property values. -/
theorem joinPass_eq_some {fs : Vobj} {l r : Varr} (h : joinPass fs = some (l, r)) :
    fs.get "left" = .list l ∧ fs.get "right" = .list r := by
  unfold joinPass at h
  split at h
  · rename_i heq1 heq2
    injection h with h2
    injection h2 with ha hb
    subst ha; subst hb
    exact ⟨asList_eq_some heq1, asList_eq_some heq2⟩
  · simp at h

/-- Shape of the join-keys normalizer results: nullish input passes through
and every other accepted input becomes a record whose left and right
properties are arrays of identical length. -/
def JKOut (r : Value) : Prop :=
  r = .undef ∨ r = .null ∨
    ∃ fs l rr, r = .obj fs ∧ fs.get "left" = .list l ∧ fs.get "right" = .list rr ∧ l.length = rr.length

/-- Every successful `joinKeys` result has the canonical shape with left and
right lists of identical length. -/
theorem joinKeys_out {p r : Value} (h : joinKeys p = .ok r) : JKOut r := by
  cases p <;> simp only [joinKeys] at h
  case undef => exact Or.inl (by injection h with h2; exact h2.symm)
  case null => exact Or.inr (Or.inl (by injection h with h2; exact h2.symm))
  case list vs =>
    unfold joinKeysList at h
    split at h
    · rename_i l rr
      split at h
      · rename_i hlen
        injection h with h2
        subst h2
        exact Or.inr (Or.inr ⟨_, l, rr, rfl, rfl, rfl, by simpa using hlen⟩)
      · simp at h
    · injection h with h2
      subst h2
      exact Or.inr (Or.inr ⟨_, vs, vs, rfl, rfl, rfl, rfl⟩)
  case obj fs =>
    unfold joinKeysObj at h
    split at h
    · rename_i l rr hjp
      split at h
      · rename_i hlen
        injection h with h2
        subst h2
        obtain ⟨h1, h2⟩ := joinPass_eq_some hjp
        exact Or.inr (Or.inr ⟨fs, l, rr, rfl, h1, h2, by simpa using hlen⟩)
      · simp at h
    · injection h with h2
      subst h2
      exact Or.inr (Or.inr ⟨_, _, _, rfl, rfl, rfl, rfl⟩)
  all_goals
    injection h with h2
  all_goals
    subst h2
  all_goals
    exact Or.inr (Or.inr ⟨_, _, _, rfl, rfl, rfl, rfl⟩)

/-- Reapplying `joinKeys` to the serialized form of a `joinKeys` result is
the identity: the constructor path taken by `Verb.from` does not change a
deserialized canonical join spec. -/
theorem joinKeys_stable {r : Value} (h : JKOut r) : joinKeys (toObjectV r) = .ok (toObjectV r) := by
  rcases h with rfl | rfl | ⟨fs, l, rr, rfl, hl, hr, hlen⟩
  · rfl
  · rfl
  · have hp : joinPass fs = some (l, rr) := by simp [joinPass, hl, hr, asList]
    simp only [toObjectV, joinKeys, joinKeysObj, joinPass_toObjectO, hp, Option.map_some]
    simp [length_toObjectA, hlen]

/-- Shape of the join-values normalizer results: nullish input passes
through, and any record result that does carry canonical left and right
lists carries them with identical length (a record result may instead be
the combined projection map). -/
def JVOut (r : Value) : Prop :=
  r = .undef ∨ r = .null ∨
    ∃ fs, r = .obj fs ∧ ∀ l rr, joinPass fs = some (l, rr) → l.length = rr.length

/-- Every successful `joinValues` result is nullish or a record whose
canonical lists, when present, have identical length. -/
theorem joinValues_out {p r : Value} (h : joinValues p = .ok r) : JVOut r := by
  cases p <;> simp only [joinValues] at h
  case undef => exact Or.inl (by injection h with h2; exact h2.symm)
  case null => exact Or.inr (Or.inl (by injection h with h2; exact h2.symm))
  case list vs =>
    unfold joinKeysList at h
    split at h
    · rename_i l rr
      split at h
      · rename_i hlen
        injection h with h2
        subst h2
        refine Or.inr (Or.inr ⟨_, rfl, ?_⟩)
        intro l2 rr2 hjp
        have : joinPass (.cons "left" (.list l) (.cons "right" (.list rr) .nil)) = some (l, rr) := rfl
        rw [this] at hjp
        injection hjp with h3
        injection h3 with ha hb
        subst ha; subst hb
        simpa using hlen
      · simp at h
    · injection h with h2
      subst h2
      refine Or.inr (Or.inr ⟨_, rfl, ?_⟩)
      intro l2 rr2 hjp
      have : joinPass (.cons "left" (.list vs) (.cons "right" (.list vs) .nil)) = some (vs, vs) := rfl
      rw [this] at hjp
      injection hjp with h3
      injection h3 with ha hb
      subst ha; subst hb
      rfl
  case obj fs =>
    unfold joinValuesObj at h
    split at h
    · rename_i l rr hjp
      split at h
      · rename_i hlen
        injection h with h2
        subst h2
        refine Or.inr (Or.inr ⟨fs, rfl, ?_⟩)
        intro l2 rr2 hjp2
        rw [hjp] at hjp2
        injection hjp2 with h3
        injection h3 with ha hb
        subst ha; subst hb
        simpa using hlen
      · simp at h
    · rename_i hjp
      injection h with h2
      subst h2
      refine Or.inr (Or.inr ⟨fs, rfl, ?_⟩)
      intro l2 rr2 hjp2
      rw [hjp] at hjp2
      simp at hjp2
  all_goals
    injection h with h2
  all_goals
    subst h2
  all_goals
    refine Or.inr (Or.inr ⟨_, rfl, ?_⟩)
  all_goals
    intro l2 rr2 hjp
  all_goals
    injection hjp with h3
  all_goals
    injection h3 with ha hb
  all_goals
    subst ha
  all_goals
    subst hb
  all_goals
    rfl

/-- Reapplying `joinValues` to the serialized form of a `joinValues` result
is the identity. -/
theorem joinValues_stable {r : Value} (h : JVOut r) : joinValues (toObjectV r) = .ok (toObjectV r) := by
  rcases h with rfl | rfl | ⟨fs, rfl, hlen⟩
  · rfl
  · rfl
  · simp only [toObjectV, joinValues, joinValuesObj, joinPass_toObjectO]
    cases hjp : joinPass fs with
    | none => simp
    | some p =>
      obtain ⟨l, rr⟩ := p
      simp [length_toObjectA, hlen l rr hjp]

/-- Canonical orderby key node test: a record carrying expr and direction
properties. -/
def keyNodeB : Value → Bool
  | .obj fs => fs.hasKey "expr" && fs.hasKey "direction"
  | _ => false

/-- Elementwise canonical orderby key node test. -/
def keyNodesA : Varr → Bool
  | .nil => true
  | .cons v vs => keyNodeB v && keyNodesA vs

/-- Every normalized orderby key is a canonical node. -/
theorem keyNodeB_orderbyKey (v : Value) : keyNodeB (orderbyKey v) = true := by
  cases v <;> simp only [orderbyKey]
  case str s => split <;> rfl
  case obj fs =>
    by_cases h : (fs.hasKey "expr" && fs.hasKey "direction") = true
    · simp [h, keyNodeB]
    · simp [h]
      rfl
  all_goals rfl

/-- Every normalized orderby key list is elementwise canonical. -/
theorem keyNodesA_orderbyKeyA : ∀ vs : Varr, keyNodesA (orderbyKeyA vs) = true
  | .nil => rfl
  | .cons v vs => by
    simp [orderbyKeyA, keyNodesA, keyNodeB_orderbyKey v, keyNodesA_orderbyKeyA vs]

/-- Shape of the orderby normalizer results: nullish input passes through,
everything else becomes a list of canonical key nodes. -/
def OBOut (r : Value) : Prop :=
  r = .undef ∨ r = .null ∨ ∃ ks, r = .list ks ∧ keyNodesA ks = true

/-- The orderby normalizer always produces the canonical shape. -/
theorem orderbyKeys_out (p : Value) : OBOut (orderbyKeys p) := by
  cases p <;> simp only [orderbyKeys]
  case undef => exact Or.inl rfl
  case null => exact Or.inr (Or.inl rfl)
  case list vs => exact Or.inr (Or.inr ⟨_, rfl, keyNodesA_orderbyKeyA vs⟩)
  all_goals
    exact Or.inr (Or.inr ⟨_, rfl, by simp [keyNodesA, keyNodeB_orderbyKey]⟩)

/-- Normalizing the serialized form of a canonical key node is the
identity. -/
theorem orderbyKey_stable {k : Value} (h : keyNodeB k = true) :
    orderbyKey (toObjectV k) = toObjectV k := by
  cases k <;> simp [keyNodeB] at h
  rename_i fs
  simp [toObjectV, orderbyKey, hasKey_toObjectO, h.1, h.2]

/-- Normalizing the serialized form of a canonical key list is the
identity. -/
theorem orderbyKeyA_stable : ∀ {ks : Varr}, keyNodesA ks = true → orderbyKeyA (toObjectA ks) = toObjectA ks
  | .nil, _ => rfl
  | .cons v vs, h => by
    simp [keyNodesA] at h
    simp [toObjectA, orderbyKeyA, orderbyKey_stable h.1, orderbyKeyA_stable h.2]

/-- Reapplying `orderbyKeys` to the serialized form of an `orderbyKeys`
result is the identity. -/
theorem orderbyKeys_stable {r : Value} (h : OBOut r) : orderbyKeys (toObjectV r) = toObjectV r := by
  rcases h with rfl | rfl | ⟨ks, rfl, hks⟩
  · rfl
  · rfl
  · simp [toObjectV, orderbyKeys, orderbyKeyA_stable hks]

/-- Normalizers pass `undefined` through unchanged, for every kind. -/
theorem normalizeParam_undef (t : ParamType) : normalizeParam t .undef = .ok .undef := by
  cases t <;> rfl

/-- Whether the kind runs a normalizer in the constructor. -/
def normKind : ParamType → Bool
  | .JoinKeys => true
  | .JoinValues => true
  | .OrderbyKeys => true
  | _ => false

/-- Kinds without a normalizer pass every parameter through unchanged. -/
theorem normalizeParam_pass {t : ParamType} (h : normKind t = false) (x : Value) :
    normalizeParam t x = .ok x := by
  cases t <;> simp [normKind] at h <;> rfl

/-- Stability of normalization under serialization: reapplying a normalizer
to the serialized form of one of its results returns that form unchanged,
for every kind. -/
theorem normalizeParam_stable {t : ParamType} {p r : Value} (h : normalizeParam t p = .ok r) :
    normalizeParam t (toObjectV r) = .ok (toObjectV r) := by
  cases t
  case JoinKeys => exact joinKeys_stable (joinKeys_out h)
  case JoinValues => exact joinValues_stable (joinValues_out h)
  case OrderbyKeys =>
    have h2 : (Except.ok (orderbyKeys p) : Except VerbError Value) = .ok r := h
    injection h2 with h3
    subst h3
    exact congrArg Except.ok (orderbyKeys_stable (orderbyKeys_out p))
  all_goals
    apply normalizeParam_pass
  all_goals
    rfl

/-- Field shape found on every registered schema: a field either has no
default or has a kind without a normalizer (in the source the only default
sits on `dedupe.keys`, an expression-list field). -/
def fieldOKb (s : FieldSchema) : Bool :=
  s.default.isUndef || !normKind s.type

/-- Round trip of one stored field value: serializing a constructor-stored
value and running it through the constructor path again (as `Verb.from`
does) stores a value equivalent to the original. -/
theorem storeField_roundtrip {s : FieldSchema} {p stored : Value}
    (hok : fieldOKb s = true) (h : storeField s p = .ok stored) :
    ∃ stored2, storeField s (toObjectV stored) = .ok stored2 ∧ equivB stored2 stored = true := by
  unfold storeField at h
  cases hnp : normalizeParam s.type p with
  | error e => rw [hnp] at h; exact absurd h (by simp)
  | ok x =>
    rw [hnp] at h
    injection h with h2
    by_cases hx : x.isUndef = true
    · rw [if_pos hx] at h2
      subst h2
      by_cases hd : s.default.isUndef = true
      · have hde : s.default = .undef := isUndef_eq hd
        rw [hde]
        refine ⟨.undef, ?_, rfl⟩
        show storeField s .undef = .ok .undef
        unfold storeField
        rw [normalizeParam_undef s.type]
        simp [Value.isUndef, hde]
      · have hnk : normKind s.type = false := by
          unfold fieldOKb at hok
          rw [Bool.or_eq_true] at hok
          rcases hok with hok | hok
          · exact absurd hok hd
          · simpa using hok
        refine ⟨toObjectV s.default, ?_, equivB_toObjectV _⟩
        unfold storeField
        rw [normalizeParam_pass hnk]
        simp only [isUndef_toObjectV]
        rw [if_neg hd]
    · rw [if_neg hx] at h2
      subst h2
      refine ⟨toObjectV x, ?_, equivB_toObjectV x⟩
      unfold storeField
      rw [normalizeParam_stable hnp]
      simp only [isUndef_toObjectV]
      rw [if_neg hx]

/-- Pairwise distinct field names in a schema. -/
def nodupNamesB : List FieldSchema → Bool
  | [] => true
  | s :: ss => ss.all (fun s2 => s2.name != s.name) && nodupNamesB ss

/-- Pointwise equivalence of two field assignment lists: same names in the
same order, equivalent values. -/
def fieldsEquivB : List (String × Value) → List (String × Value) → Bool
  | [], [] => true
  | f :: fs, g :: gs => f.1 == g.1 && equivB f.2 g.2 && fieldsEquivB fs gs
  | _, _ => false

/-- Pointwise equivalent field lists look equivalent under every property
read. -/
theorem lookupF_equiv : ∀ {fs gs : List (String × Value)}, fieldsEquivB fs gs = true →
    ∀ n, equivB (lookupF fs n) (lookupF gs n) = true
  | [], [], _, _ => rfl
  | f :: fs, g :: gs, h, n => by
    simp only [fieldsEquivB, Bool.and_eq_true] at h
    obtain ⟨⟨hn, hv⟩, ht⟩ := h
    have hn2 : f.1 = g.1 := by simpa using hn
    simp only [lookupF, hn2]
    by_cases hcase : (g.1 == n) = true
    · simp [hcase, hv]
    · simp [hcase, lookupF_equiv ht n]

/-- The first stored field of a construction is its first schema name. -/
theorem lookupF_head {name : String} {v : Value} {rest : List (String × Value)} :
    lookupF ((name, v) :: rest) name = v := by
  simp [lookupF]

/-- Map congruence over schema lists, used to move a lookup from the full
field list to its tail. -/
theorem mapCongrOn {α β : Type} : ∀ {l : List α} {f g : α → β}, (∀ a ∈ l, f a = g a) → l.map f = l.map g
  | [], _, _, _ => rfl
  | a :: as, f, g, h => by
    simp only [List.map_cons]
    rw [h a (by simp), mapCongrOn (fun x hx => h x (by simp [hx]))]

/-- Round trip of a whole construction: feeding the serialized stored fields
of a successful construction back through the constructor (what `Verb.from`
does with a `toObject` result) succeeds and stores pointwise equivalent
fields. Needs the field names distinct and every field in registry shape. -/
theorem constructFields_roundtrip :
    ∀ (schema : List FieldSchema) (params : List Value) (fields : List (String × Value)),
    schema.all fieldOKb = true →
    nodupNamesB schema = true →
    constructFields schema params = .ok fields →
    ∃ fields2,
      constructFields schema (schema.map (fun s => toObjectV (lookupF fields s.name))) = .ok fields2 ∧
      fieldsEquivB fields2 fields = true
  | [], params, fields, _, _, h => by
    refine ⟨[], rfl, ?_⟩
    injection h with h2
    subst h2
    rfl
  | s :: ss, params, fields, hok, hnd, h => by
    simp only [List.all_cons, Bool.and_eq_true] at hok
    simp only [nodupNamesB, Bool.and_eq_true] at hnd
    unfold constructFields at h
    cases hsf : storeField s (params.headD .undef) with
    | error e => rw [hsf] at h; exact absurd h (by simp)
    | ok v0 =>
      rw [hsf] at h
      cases hcf : constructFields ss params.tail with
      | error e => rw [hcf] at h; exact absurd h (by simp)
      | ok rest =>
        rw [hcf] at h
        injection h with h2
        subst h2
        obtain ⟨v0x, hv0x, hv0e⟩ := storeField_roundtrip hok.1 hsf
        obtain ⟨rest2, hrest2, hrest2e⟩ :=
          constructFields_roundtrip ss params.tail rest hok.2 hnd.2 hcf
        refine ⟨(s.name, v0x) :: rest2, ?_, ?_⟩
        · simp only [List.map_cons, constructFields, List.headD_cons, lookupF_head, hv0x,
            List.tail_cons]
          have hmaps : ss.map (fun s2 => toObjectV (lookupF ((s.name, v0) :: rest) s2.name)) =
              ss.map (fun s2 => toObjectV (lookupF rest s2.name)) := by
            apply mapCongrOn
            intro s2 hs2
            have hne : (s2.name != s.name) = true := by
              have := List.all_eq_true.mp hnd.1 s2 hs2
              simpa using this
            have hne2 : (s.name == s2.name) = false := by
              rw [beq_eq_false_iff_ne]
              intro hcontra
              rw [bne_iff_ne] at hne
              exact hne hcontra.symm
            simp [lookupF, hne2]
          rw [hmaps, hrest2]
        · simp [fieldsEquivB, hv0e, hrest2e]

/-- Catalog resolution does not distinguish equivalent values: a live table
handle and its serialized name string resolve to the same table, and every
other equivalent pair resolves identically (usually to the same failure). -/
theorem getTable_respects (catalog : Catalog) : ∀ {a b : Value}, equivB a b = true →
    getTable catalog a = getTable catalog b := by
  intro a b h
  cases a <;> cases b <;> simp_all [equivB, getTable, descrMatch]

/-- Elementwise catalog resolution does not distinguish elementwise
equivalent arrays. -/
theorem mapExceptA_getTable_respects (catalog : Catalog) :
    ∀ {as bs : Varr}, equivA as bs = true →
    mapExceptA (getTable catalog) as = mapExceptA (getTable catalog) bs
  | .nil, .nil, _ => rfl
  | .cons a as, .cons b bs, h => by
    simp only [equivA, Bool.and_eq_true] at h
    simp only [mapExceptA, getTable_respects catalog h.1,
      mapExceptA_getTable_respects catalog h.2]

/-- Table-ref-list resolution does not distinguish equivalent values. -/
theorem mapTables_respects (catalog : Catalog) {a b : Value} (h : equivB a b = true) :
    mapTables catalog a = mapTables catalog b := by
  cases a <;> cases b <;> simp_all [equivB, mapTables, descrMatch]
  rw [mapExceptA_getTable_respects catalog (by assumption)]

/-- Relatedness of two fallible results: success with equivalent values, or
the same failure. -/
def exRel : Except VerbError Value → Except VerbError Value → Prop
  | .ok a, .ok b => equivB a b = true
  | .error e, .error f => e = f
  | _, _ => False

/-- Relatedness of two fallible parameter lists: success with elementwise
equivalent lists, or the same failure. -/
def exRelL : Except VerbError (List Value) → Except VerbError (List Value) → Prop
  | .ok a, .ok b => equivL a b = true
  | .error e, .error f => e = f
  | _, _ => False

/-- Parameter resolution in `evaluate` sends equivalent stored values to
related results, for every kind. -/
theorem resolveField_rel (catalog : Catalog) (t : ParamType) {a b : Value} (h : equivB a b = true) :
    exRel (if t = ParamType.TableRef then getTable catalog a
           else if t = ParamType.TableRefList then mapTables catalog a
           else .ok a)
          (if t = ParamType.TableRef then getTable catalog b
           else if t = ParamType.TableRefList then mapTables catalog b
           else .ok b) := by
  by_cases h1 : t = ParamType.TableRef
  · rw [if_pos h1, if_pos h1, getTable_respects catalog h]
    cases getTable catalog b <;> simp [exRel, equivB_refl]
  · by_cases h2 : t = ParamType.TableRefList
    · rw [if_neg h1, if_neg h1, if_pos h2, if_pos h2, mapTables_respects catalog h]
      cases mapTables catalog b <;> simp [exRel, equivB_refl]
    · rw [if_neg h1, if_neg h1, if_neg h2, if_neg h2]
      exact h

/-- Lifting fieldwise related resolution over a whole schema walk. -/
theorem mapExcept_rel : ∀ (schema : List FieldSchema) (f g : FieldSchema → Except VerbError Value),
    (∀ s ∈ schema, exRel (f s) (g s)) →
    exRelL (mapExcept f schema) (mapExcept g schema)
  | [], _, _, _ => rfl
  | s :: ss, f, g, h => by
    have hhead := h s (by simp)
    have htail := mapExcept_rel ss f g (fun s2 hs2 => h s2 (by simp [hs2]))
    simp only [mapExcept]
    cases hf : f s <;> cases hg : g s <;> rw [hf, hg] at hhead <;> simp [exRel] at hhead
    · simp [exRelL, hhead]
    · cases hmf : mapExcept f ss <;> cases hmg : mapExcept g ss <;>
        rw [hmf, hmg] at htail <;> simp [exRelL] at htail ⊢ <;>
        simp [htail, equivL, hhead]

/-- An engine respects value equivalence when its method dispatch cannot
distinguish elementwise equivalent positional argument lists. -/
def InvokeRespects (invoke : String → List Value → Value) : Prop :=
  ∀ n as bs, equivL as bs = true → invoke n as = invoke n bs

/-- Verbs with the same name and schema and pointwise equivalent stored
fields evaluate identically, for every equivalence-respecting engine and
every catalog: parameter resolution sends equivalent fields to identical
table resolutions and equivalent pass-through values, and the engine cannot
distinguish the rest. -/
theorem evaluate_equiv {v w : Verb}
    (hname : v.verb = w.verb) (hschema : v.schema = w.schema)
    (hfields : fieldsEquivB v.fields w.fields = true)
    (invoke : String → List Value → Value) (hinv : InvokeRespects invoke)
    (catalog : Catalog) :
    v.evaluate invoke catalog = w.evaluate invoke catalog := by
  unfold Verb.evaluate
  rw [hname, hschema]
  have hrel := mapExcept_rel w.schema
    (fun s =>
      if s.type = ParamType.TableRef then getTable catalog (v.get s.name)
      else if s.type = ParamType.TableRefList then mapTables catalog (v.get s.name)
      else .ok (v.get s.name))
    (fun s =>
      if s.type = ParamType.TableRef then getTable catalog (w.get s.name)
      else if s.type = ParamType.TableRefList then mapTables catalog (w.get s.name)
      else .ok (w.get s.name))
    (fun s _ => resolveField_rel catalog s.type (lookupF_equiv hfields s.name))
  cases hA : mapExcept (fun s =>
      if s.type = ParamType.TableRef then getTable catalog (v.get s.name)
      else if s.type = ParamType.TableRefList then mapTables catalog (v.get s.name)
      else .ok (v.get s.name)) w.schema <;>
    cases hB : mapExcept (fun s =>
      if s.type = ParamType.TableRef then getTable catalog (w.get s.name)
      else if s.type = ParamType.TableRefList then mapTables catalog (w.get s.name)
      else .ok (w.get s.name)) w.schema <;>
    rw [hA, hB] at hrel <;> simp [exRelL] at hrel
  · simp [hrel]
  · simp [hname, hinv w.verb _ _ hrel]

/-- Well-formedness of the registry as written in the source: every entry is
keyed by its class name, has pairwise distinct field names, only
registry-shaped fields (defaults only on normalizer-free kinds), and no
field named like the discriminator key. -/
def registryOKb : Bool :=
  Verbs.all (fun e =>
    e.1 == e.2.name &&
    nodupNamesB e.2.schema &&
    e.2.schema.all fieldOKb &&
    e.2.schema.all (fun s => s.name != "verb"))

/-- The registered schemas are well formed, by computation over the
source literals. -/
theorem registryOK : registryOKb = true := by decide

/-- What a successful registry lookup guarantees, read off `registryOK`. -/
theorem verbsFind_props {name : String} {T : VerbClass} (h : verbsFind name = some T) :
    T.name = name ∧ nodupNamesB T.schema = true ∧ T.schema.all fieldOKb = true ∧
      T.schema.all (fun s => s.name != "verb") = true := by
  unfold verbsFind at h
  cases hf : Verbs.find? (fun e => e.1 == name) with
  | none => rw [hf] at h; simp at h
  | some e =>
    rw [hf] at h
    simp at h
    subst h
    have hpred := List.find?_some hf
    have hmem := List.mem_of_find?_eq_some hf
    have hall := List.all_eq_true.mp registryOK e hmem
    simp only [Bool.and_eq_true] at hall
    obtain ⟨⟨⟨hkey, hnd⟩, hok⟩, hnv⟩ := hall
    refine ⟨?_, hnd, hok, hnv⟩
    have h1 : e.1 = e.2.name := by simpa using hkey
    have h2 : e.1 = name := by simpa using hpred
    rw [← h1, h2]

/-- Reading a mapped field record at one of its names gives that name's
mapped value (any entry for the name carries the same value, so no
distinctness is needed). -/
theorem fieldsToVobj_get : ∀ (schema : List FieldSchema) (f : String → Value) {n : String},
    (∃ s, s ∈ schema ∧ s.name = n) →
    (fieldsToVobj (schema.map (fun s => (s.name, f s.name)))).get n = f n
  | [], _, _, h => by simp at h
  | s :: ss, f, n, h => by
    simp only [List.map_cons, fieldsToVobj, Vobj.get]
    by_cases hc : (s.name == n) = true
    · have hsn : s.name = n := by simpa using hc
      simp [hc, hsn]
    · simp only [hc, if_false, Bool.false_eq_true]
      apply fieldsToVobj_get ss f
      obtain ⟨s2, hs2, hn⟩ := h
      rcases List.mem_cons.mp hs2 with rfl | hs2t
      · exact absurd (by simpa using hn : (s2.name == n) = true) (by simp [hc])
      · exact ⟨s2, hs2t, hn⟩

/-- Reading a serialized verb at one of its schema field names (never the
discriminator name) gives the serialized stored value. -/
theorem toObject_objGet_field {vb : String} {schema : List FieldSchema}
    {fields : List (String × Value)} {s : FieldSchema} (hs : s ∈ schema)
    (hnv : (s.name != "verb") = true) :
    (Verb.toObject ⟨vb, schema, fields⟩).objGet s.name = toObjectV (lookupF fields s.name) := by
  have hvb : ("verb" == s.name) = false := by
    rw [beq_eq_false_iff_ne]
    intro hcontra
    rw [bne_iff_ne] at hnv
    exact hnv hcontra.symm
  show (Vobj.cons "verb" (.str vb) (fieldsToVobj (schema.map (fun s2 => (s2.name, toObjectV (lookupF fields s2.name)))))).get s.name = _
  simp only [Vobj.get, hvb, if_false, Bool.false_eq_true]
  exact fieldsToVobj_get schema (fun n => toObjectV (lookupF fields n)) ⟨s, hs, rfl⟩

/-- C1: Round-trip law. For every verb constructible from the registered
schema set (a successful `new Type(...)` for a registry entry),
`Verb.from(v.toObject())` succeeds and evaluates identically to `v` against
the same table and catalog: the engine sees positional arguments it cannot
tell apart (equivalent up to serialized expression descriptors and table
names, with table references resolved through the catalog to the very same
tables), so the resulting data is the same even though object identity of
nested structures need not match. -/
theorem claim1_roundtrip_evaluates_identically
    (name : String) (T : VerbClass) (hreg : verbsFind name = some T)
    (params : List Value) (v : Verb) (hv : T.new params = .ok v)
    (invoke : String → List Value → Value) (hinv : InvokeRespects invoke) (catalog : Catalog) :
    ∃ w, Verb.from v.toObject = .ok w ∧ w.evaluate invoke catalog = v.evaluate invoke catalog := by
  obtain ⟨hTname, hnd, hok, hnv⟩ := verbsFind_props hreg
  unfold VerbClass.new Verb.construct at hv
  cases hcf : constructFields T.schema params with
  | error e => rw [hcf] at hv; exact absurd hv (by simp)
  | ok fields =>
    rw [hcf] at hv
    injection hv with hv2
    subst hv2
    obtain ⟨fields2, hfc, hfe⟩ := constructFields_roundtrip T.schema params fields hok hnd hcf
    refine ⟨⟨T.name, T.schema, fields2⟩, ?_, ?_⟩
    · have hfind : verbsFind T.name = some T := by rw [hTname]; exact hreg
      have hget : (Verb.toObject ⟨T.name, T.schema, fields⟩).objGet "verb" = .str T.name := rfl
      simp only [Verb.from, hget, hfind]
      have hparams : T.schema.map
          (fun s => fromObjectV ((Verb.toObject ⟨T.name, T.schema, fields⟩).objGet s.name)) =
          T.schema.map (fun s => toObjectV (lookupF fields s.name)) := by
        apply mapCongrOn
        intro s hs
        rw [toObject_objGet_field hs (by simpa using List.all_eq_true.mp hnv s hs),
          fromObjectV_id]
      rw [hparams]
      unfold VerbClass.new Verb.construct
      rw [hfc]
    · exact @evaluate_equiv ⟨T.name, T.schema, fields2⟩ ⟨T.name, T.schema, fields⟩ rfl rfl hfe
        invoke hinv catalog

/-- Witness for C1: the round-trip law applied to a concretely constructed
dedupe verb, a constant (hence equivalence-respecting) engine and the empty
catalog. -/
theorem claim1_roundtrip_witness :
    ∃ w, Verb.from (Verb.toObject ⟨"dedupe", Dedupe.schema, [("keys", Value.list Varr.nil)]⟩) = .ok w ∧
      w.evaluate (fun _ _ => Value.null) (fun _ => none) =
        Verb.evaluate ⟨"dedupe", Dedupe.schema, [("keys", Value.list Varr.nil)]⟩
          (fun _ _ => Value.null) (fun _ => none) :=
  claim1_roundtrip_evaluates_identically "dedupe" Dedupe rfl [] _ rfl
    (fun _ _ => Value.null) (fun _ _ _ _ => rfl) (fun _ => none)

/-- Field resolution as the spec states it, kind by kind: a table-ref field
is replaced by a catalog lookup, a table-ref-list field elementwise so, and
every other field passes through unchanged. -/
def resolveFieldSpec (catalog : Catalog) (t : ParamType) (value : Value) : Except VerbError Value :=
  match t with
  | .TableRef => getTable catalog value
  | .TableRefList => mapTables catalog value
  | _ => .ok value

/-- C2: `evaluate` resolves each stored field by kind — table refs through
the catalog, table-ref lists elementwise, everything else untouched — and
then invokes the table method named by the verb with the resolved values as
positional arguments in schema order, returning its result. -/
theorem claim2_evaluate_resolves_by_kind (v : Verb) (invoke : String → List Value → Value)
    (catalog : Catalog) :
    v.evaluate invoke catalog =
      match mapExcept (fun s => resolveFieldSpec catalog s.type (v.get s.name)) v.schema with
      | .ok args => .ok (invoke v.verb args)
      | .error e => .error e := by
  unfold Verb.evaluate
  have hfun : (fun s : FieldSchema =>
      if s.type = ParamType.TableRef then getTable catalog (v.get s.name)
      else if s.type = ParamType.TableRefList then mapTables catalog (v.get s.name)
      else .ok (v.get s.name)) = (fun s => resolveFieldSpec catalog s.type (v.get s.name)) := by
    funext s
    cases hs : s.type <;> simp [resolveFieldSpec, hs]
  rw [hfun]
  cases mapExcept (fun s => resolveFieldSpec catalog s.type (v.get s.name)) v.schema <;> rfl

/-- The JS nullish test (`value ?? default` applies the default exactly on
these two values). -/
def isNullish : Value → Bool
  | .undef => true
  | .null => true
  | _ => false

/-- Counterexample to C3 as stated: the constructor keeps a supplied `null`
(its test is `value !== undefined`, not nullish coalescing), so
`Dedupe(null)` stores `keys = null` where `value ?? default` would have
stored the empty-list default. -/
theorem claim3_counterexample :
    Dedupe.new [Value.null] = .ok ⟨"dedupe", Dedupe.schema, [("keys", Value.null)]⟩ ∧
    (if isNullish Value.null then Value.list Varr.nil else Value.null) = Value.list Varr.nil ∧
    Value.null ≠ Value.list Varr.nil :=
  ⟨rfl, rfl, by simp⟩

/-- One field stored as the amended claim words it: the kind-specific
normalizer for join-keys, join-values and orderby-keys, every other kind
untouched, then the default exactly when the normalized value is
`undefined`. -/
def storeFieldSpec (s : FieldSchema) (p : Value) : Except VerbError Value :=
  match (match s.type with
         | .JoinKeys => joinKeys p
         | .JoinValues => joinValues p
         | .OrderbyKeys => .ok (orderbyKeys p)
         | _ => .ok p) with
  | .error e => .error e
  | .ok value => .ok (if value.isUndef then s.default else value)

/-- Construction as the amended claim words it: the field at index `i`
receives `params[i]` (or `undefined` past the end). -/
def constructSpecFrom (params : List Value) : List FieldSchema → Nat → Except VerbError (List (String × Value))
  | [], _ => .ok []
  | s :: ss, i =>
    match storeFieldSpec s (params.getD i .undef) with
    | .error e => .error e
    | .ok value =>
      match constructSpecFrom params ss (i + 1) with
      | .error e => .error e
      | .ok rest => .ok ((s.name, value) :: rest)

/-- Index-addressed construction of a whole verb, per the amended claim. -/
def constructSpec (name : String) (schema : List FieldSchema) (params : List Value) : Except VerbError Verb :=
  match constructSpecFrom params schema 0 with
  | .error e => .error e
  | .ok fields => .ok ⟨name, schema, fields⟩

/-- The positional walk of the source constructor and the index-by-index
storing coincide fieldwise. -/
theorem storeField_eq_spec (s : FieldSchema) (p : Value) : storeField s p = storeFieldSpec s p := by
  unfold storeField storeFieldSpec normalizeParam
  cases hs : s.type <;> simp

/-- Reading the head after dropping `i` elements is indexing at `i`. -/
theorem headD_drop : ∀ (ps : List Value) (i : Nat), (ps.drop i).headD .undef = ps.getD i .undef
  | [], i => by cases i <;> rfl
  | p :: ps, 0 => rfl
  | p :: ps, i + 1 => by
    simp only [List.drop_succ_cons, List.getD_cons_succ]
    exact headD_drop ps i

/-- The positional walk equals the index-addressed walk from any start. -/
theorem constructFields_eq_specFrom :
    ∀ (schema : List FieldSchema) (params : List Value) (i : Nat),
    constructFields schema (params.drop i) = constructSpecFrom params schema i
  | [], _, _ => rfl
  | s :: ss, params, i => by
    unfold constructFields constructSpecFrom
    rw [headD_drop params i, storeField_eq_spec, List.tail_drop,
      constructFields_eq_specFrom ss params (i + 1)]

/-- C3 (amended): construction processes field descriptors in schema order,
the field at index `i` receiving `params[i]` (or `undefined`); join-keys,
join-values and orderby-keys values run through their normalizer while all
other kinds pass through unchanged; and the stored value is
`value !== undefined ? value : default` — the schema default is applied
exactly when the supplied (normalized) value is `undefined`, not on `null`. -/
theorem claim3_construct_amended (name : String) (schema : List FieldSchema) (params : List Value) :
    Verb.construct name schema params = constructSpec name schema params := by
  unfold Verb.construct constructSpec
  have h := constructFields_eq_specFrom schema params 0
  rw [List.drop_zero] at h
  rw [h]

/-- C4: `Verb.from` on a plain object whose verb discriminator is not a key
of the `Verbs` registry fails with the unknown-verb error (the source
dereferences `Verbs[object.verb].schema` on `undefined` and throws there). -/
theorem claim4_from_unknown_verb (object : Value)
    (h : ∀ n, object.objGet "verb" = .str n → verbsFind n = none) :
    Verb.from object = .error .unknownVerb := by
  unfold Verb.from
  cases hg : object.objGet "verb" <;> try rfl
  rename_i n
  show (match verbsFind n with
        | some T => T.new (T.schema.map (fun (s : FieldSchema) => fromObjectV (object.objGet s.name)))
        | none => Except.error VerbError.unknownVerb) = .error .unknownVerb
  rw [h n hg]

/-- Witness for C4: the unknown-verb failure at the concrete object with
discriminator `unknown_verb`. -/
theorem claim4_witness :
    Verb.from (.obj (.cons "verb" (.str "unknown_verb") .nil)) = .error .unknownVerb :=
  claim4_from_unknown_verb _ (fun n hn => by
    have hn2 : Value.str "unknown_verb" = Value.str n := hn
    injection hn2 with h2
    subst h2
    rfl)

/-- Purity of a built field record whose values are all pure. -/
theorem pureDataO_fieldsToVobj : ∀ {l : List (String × Value)},
    (∀ x ∈ l, pureDataB x.2 = true) → pureDataO (fieldsToVobj l) = true
  | [], _ => rfl
  | x :: xs, h => by
    have ht := @pureDataO_fieldsToVobj xs (fun y hy => h y (List.mem_cons_of_mem x hy))
    simp [fieldsToVobj, pureDataO, h x (by simp), ht]

/-- C5: the output of `toObject` contains, recursively, no live table handle
and no callable value — only scalars, records and arrays (table references
serialize to name strings, callables to source-text descriptors). -/
theorem claim5_toObject_pure_data (v : Verb) : pureDataB v.toObject = true := by
  show pureDataO (.cons "verb" (.str v.verb)
    (fieldsToVobj (v.schema.map (fun s => (s.name, toObjectV (v.get s.name)))))) = true
  simp only [pureDataO, pureDataB, Bool.true_and]
  apply pureDataO_fieldsToVobj
  intro x hx
  obtain ⟨s, hs, rfl⟩ := List.mem_map.mp hx
  exact pureDataB_toObjectV _

/-- A method call never writes the instance: its post-state is its
pre-state. -/
theorem applyOp_snd (v : Verb) (op : VerbOp) : (v.applyOp op).2 = v := by
  cases op <;> rfl

/-- C7: a `Verb` is immutable after construction — any sequence of
`evaluate`, `toObject` and `toAST` calls, in any order and any number of
times, leaves the instance (its verb name, schema and every stored field)
unchanged, because none of those method bodies assigns to `this`. -/
theorem claim7_verb_immutable : ∀ (ops : List VerbOp) (v : Verb), runOps v ops = v
  | [], _ => rfl
  | op :: ops, v => by
    rw [runOps, applyOp_snd, claim7_verb_immutable ops v]

/-- Expression leaf serialization fails only for a missing source text. -/
theorem exprToAST_error {parse : String → Value} {v : Value} {e : VerbError}
    (h : exprToAST parse v = .error e) : e = .unparsableExpression := by
  cases v
  case func o =>
    cases o
    case none =>
      have h2 : (Except.error VerbError.unparsableExpression : Except VerbError Value) = .error e := h
      injection h2 with h3
      exact h3.symm
    case some t => exact Except.noConfusion h
  case obj fs =>
    have h2 : (match fs.get "expr" with
        | Value.str t => (Except.ok (parse t) : Except VerbError Value)
        | _ => .error .unparsableExpression) = .error e := h
    cases hg : fs.get "expr" <;> rw [hg] at h2 <;> first
      | (injection h2 with h3; exact h3.symm)
      | exact Except.noConfusion h2
  all_goals exact Except.noConfusion h

/-- Propagation principle: a chained serialization fails only with failures
of its step or of its continuation. -/
theorem bindE_error {α β : Type} {x : Except VerbError α} {f : α → Except VerbError β} {e : VerbError}
    (h : bindE x f = .error e)
    (hx : ∀ e2, x = .error e2 → e2 = .unparsableExpression)
    (hf : ∀ a e2, f a = .error e2 → e2 = .unparsableExpression) : e = .unparsableExpression := by
  cases x with
  | error e2 =>
    have h2 : (Except.error e2 : Except VerbError β) = .error e := h
    injection h2 with h3
    subst h3
    exact hx _ rfl
  | ok a => exact hf a e h

/-- Elementwise expression serialization fails only for a missing source
text. -/
theorem astExprA_error {parse : String → Value} : ∀ {vs : Varr} {e : VerbError},
    astExprA parse vs = .error e → e = .unparsableExpression
  | .nil, e, h => by simp [astExprA] at h
  | .cons v vs, e, h => by
    simp only [astExprA] at h
    exact bindE_error h (fun e2 h2 => exprToAST_error h2)
      (fun a e2 h2 => bindE_error h2 (fun e3 h3 => astExprA_error h3)
        (fun b e3 h3 => Except.noConfusion h3))

/-- Valuewise expression serialization fails only for a missing source
text. -/
theorem astExprO_error {parse : String → Value} : ∀ {fs : Vobj} {e : VerbError},
    astExprO parse fs = .error e → e = .unparsableExpression
  | .nil, e, h => by simp [astExprO] at h
  | .cons k v fs, e, h => by
    simp only [astExprO] at h
    exact bindE_error h (fun e2 h2 => exprToAST_error h2)
      (fun a e2 h2 => bindE_error h2 (fun e3 h3 => astExprO_error h3)
        (fun b e3 h3 => Except.noConfusion h3))

/-- Orderby key serialization fails only for a missing source text. -/
theorem astOrderKey_error {parse : String → Value} {v : Value} {e : VerbError}
    (h : astOrderKey parse v = .error e) : e = .unparsableExpression := by
  cases v <;> simp only [astOrderKey] at h
  case obj fs =>
    exact bindE_error h (fun e2 h2 => exprToAST_error h2)
      (fun a e2 h2 => Except.noConfusion h2)
  all_goals exact exprToAST_error h

/-- Elementwise orderby key serialization fails only for a missing source
text. -/
theorem astOrderA_error {parse : String → Value} : ∀ {vs : Varr} {e : VerbError},
    astOrderA parse vs = .error e → e = .unparsableExpression
  | .nil, e, h => by simp [astOrderA] at h
  | .cons v vs, e, h => by
    simp only [astOrderA] at h
    exact bindE_error h (fun e2 h2 => astOrderKey_error h2)
      (fun a e2 h2 => bindE_error h2 (fun e3 h3 => astOrderA_error h3)
        (fun b e3 h3 => Except.noConfusion h3))

/-- Join spec serialization fails only for a missing source text. -/
theorem astJoinO_error {parse : String → Value} : ∀ {fs : Vobj} {e : VerbError},
    astJoinO parse fs = .error e → e = .unparsableExpression
  | .nil, e, h => by simp [astJoinO] at h
  | .cons k v fs, e, h => by
    cases v <;> simp only [astJoinO] at h <;>
      refine bindE_error h ?_
        (fun a e2 h2 => bindE_error h2 (fun e3 h3 => astJoinO_error h3)
          (fun b e3 h3 => Except.noConfusion h3))
    case list => exact fun e2 h2 => astExprA_error h2
    all_goals exact fun e2 h2 => exprToAST_error h2

/-- Sub-option serialization fails only for a missing source text. -/
theorem subToAST_error {parse : String → Value} {v : Value} {t : ParamType} {e : VerbError}
    (h : subToAST parse v t = .error e) : e = .unparsableExpression := by
  cases t <;> cases v <;> (try simp only [subToAST] at h) <;>
    first
      | exact exprToAST_error h
      | exact Except.noConfusion h
      | exact bindE_error h (fun e2 h2 => astExprA_error h2)
          (fun a e2 h2 => Except.noConfusion h2)

/-- Option bag serialization fails only for a missing source text. -/
theorem astOptionsO_error {parse : String → Value} {props : List (String × ParamType)} :
    ∀ {fs : Vobj} {e : VerbError},
    astOptionsO parse props fs = .error e → e = .unparsableExpression
  | .nil, e, h => by simp [astOptionsO] at h
  | .cons k v fs, e, h => by
    simp only [astOptionsO] at h
    refine bindE_error h ?_
      (fun a e2 h2 => bindE_error h2 (fun e3 h3 => astOptionsO_error h3)
        (fun b e3 h3 => Except.noConfusion h3))
    intro e2 h2
    cases hl : props.lookup k with
    | some t => rw [hl] at h2; exact subToAST_error h2
    | none => rw [hl] at h2; exact Except.noConfusion h2

/-- Tree serialization of one field fails only with
`unparsableExpression`, whatever the kind, the sub-kinds and the value. -/
theorem toASTV_error {parse : String → Value} {value : Value} {type : ParamType}
    {props : List (String × ParamType)} {e : VerbError}
    (h : toASTV parse value type props = .error e) : e = .unparsableExpression := by
  cases type <;> cases value <;> (try simp only [toASTV] at h) <;>
    first
      | exact exprToAST_error h
      | exact Except.noConfusion h
      | exact bindE_error h (fun e2 h2 => astExprA_error h2)
          (fun a e2 h2 => Except.noConfusion h2)
      | exact bindE_error h (fun e2 h2 => astExprO_error h2)
          (fun a e2 h2 => Except.noConfusion h2)
      | exact bindE_error h (fun e2 h2 => astOptionsO_error h2)
          (fun a e2 h2 => Except.noConfusion h2)
      | exact bindE_error h (fun e2 h2 => astJoinO_error h2)
          (fun a e2 h2 => Except.noConfusion h2)
      | exact bindE_error h (fun e2 h2 => astOrderA_error h2)
          (fun a e2 h2 => Except.noConfusion h2)

/-- Walk failure: when some field of the schema serializes to an error and
every possible failure is the unparsable one, the whole walk fails with
it (whichever erroring field comes first). -/
theorem mapExcept_error_unparsable :
    ∀ (l : List FieldSchema) (f : FieldSchema → Except VerbError (String × Value)),
    (∀ s2 ∈ l, ∀ e, f s2 = .error e → e = .unparsableExpression) →
    (∃ s2, s2 ∈ l ∧ ∃ e, f s2 = .error e) →
    mapExcept f l = .error .unparsableExpression
  | [], f, _, hex => by
    obtain ⟨s2, hs2, _⟩ := hex
    simp at hs2
  | s :: ss, f, hall, hex => by
    cases hf : f s with
    | error e2 =>
      have he := hall s (by simp) e2 hf
      subst he
      simp [mapExcept, hf]
    | ok b =>
      have hex2 : ∃ s2, s2 ∈ ss ∧ ∃ e, f s2 = .error e := by
        obtain ⟨s2, hs2, e, he⟩ := hex
        rcases List.mem_cons.mp hs2 with rfl | htail
        · rw [hf] at he; exact absurd he (by simp)
        · exact ⟨s2, htail, e, he⟩
      have ht := mapExcept_error_unparsable ss f
        (fun s2 hs2 => hall s2 (List.mem_cons_of_mem s hs2)) hex2
      simp [mapExcept, hf, ht]

/-- C8: `toAST` on a verb one of whose expression-kind fields holds an
expression with no retrievable source text (a callable lacking attached
source) fails with the unparsable-expression error rather than silently
coercing the value to a literal or dropping it. -/
theorem claim8_toAST_unparsable (v : Verb) (parse : String → Value) (s : FieldSchema)
    (hs : s ∈ v.schema) (ht : s.type = .Expr) (hval : v.get s.name = .func none) :
    v.toAST parse = .error .unparsableExpression := by
  unfold Verb.toAST
  have hwalk : mapExcept (fun s2 =>
      bindE (toASTV parse (v.get s2.name) s2.type s2.props) (fun a => .ok (s2.name, a)))
      v.schema = .error .unparsableExpression := by
    apply mapExcept_error_unparsable
    · intro s2 _ e he
      exact bindE_error he (fun e2 h2 => toASTV_error h2) (fun a e2 h2 => Except.noConfusion h2)
    · refine ⟨s, hs, .unparsableExpression, ?_⟩
      rw [hval, ht]
      rfl
  rw [hwalk]
  rfl

/-- Witness for C8: a concretely constructed verb with one expression field
holding a sourceless callable tree-serializes to the unparsable-expression
failure. -/
theorem claim8_toAST_witness :
    Verb.construct "sample" [⟨"e", .Expr, .undef, []⟩] [.func none] =
      .ok ⟨"sample", [⟨"e", .Expr, .undef, []⟩], [("e", .func none)]⟩ ∧
    Verb.toAST ⟨"sample", [⟨"e", .Expr, .undef, []⟩], [("e", .func none)]⟩ (fun s => .str s) =
      .error .unparsableExpression :=
  ⟨rfl, claim8_toAST_unparsable _ _ ⟨"e", .Expr, .undef, []⟩ (List.Mem.head _) rfl rfl⟩

/-- C6: the join-keys normalizer maps a single name to identical left and
right singleton lists, maps a 2-element array of arrays to verbatim left and
right lists, throws the mismatched-arity error when the two arrays differ in
length, and every accepted input yields left and right sequences of
identical length. -/
theorem claim6_joinKeys_normalizer :
    joinKeys (.str "a") =
      .ok (.obj (.cons "left" (.list (.cons (.str "a") .nil))
        (.cons "right" (.list (.cons (.str "a") .nil)) .nil))) ∧
    joinKeys (.list (.cons (.list (.cons (.str "a") (.cons (.str "b") .nil)))
        (.cons (.list (.cons (.str "c") (.cons (.str "d") .nil))) .nil))) =
      .ok (.obj (.cons "left" (.list (.cons (.str "a") (.cons (.str "b") .nil)))
        (.cons "right" (.list (.cons (.str "c") (.cons (.str "d") .nil))) .nil))) ∧
    joinKeys (.list (.cons (.list (.cons (.str "a") .nil))
        (.cons (.list (.cons (.str "c") (.cons (.str "d") .nil))) .nil))) =
      .error .mismatchedJoinArity ∧
    (∀ p r l rr, joinKeys p = .ok r → r.objGet "left" = .list l →
      r.objGet "right" = .list rr → l.length = rr.length) := by
  refine ⟨rfl, rfl, rfl, ?_⟩
  intro p r l rr h hl hr
  rcases joinKeys_out h with rfl | rfl | ⟨fs, l0, r0, rfl, h1, h2, hlen⟩
  · exact absurd hl (by simp [Value.objGet])
  · exact absurd hl (by simp [Value.objGet])
  · have hl2 : fs.get "left" = .list l := hl
    have hr2 : fs.get "right" = .list rr := hr
    rw [h1] at hl2
    injection hl2 with h3
    subst h3
    rw [h2] at hr2
    injection hr2 with h4
    subst h4
    exact hlen

/-- Witness for C6: the invariant component applied to the single-name
input, whose accepted result has singleton lists on both sides. -/
theorem claim6_joinKeys_witness :
    Varr.length (.cons (.str "a") .nil) = Varr.length (.cons (.str "a") .nil) :=
  claim6_joinKeys_normalizer.2.2.2 (.str "a")
    (.obj (.cons "left" (.list (.cons (.str "a") .nil))
      (.cons "right" (.list (.cons (.str "a") .nil)) .nil)))
    (.cons (.str "a") .nil) (.cons (.str "a") .nil) rfl rfl rfl

/-- C9: constructing `Dedupe()` with no arguments stores the schema default
for its missing positional parameter: the keys field is the empty list. -/
theorem claim9_dedupe_default :
    Dedupe.new [] = .ok ⟨"dedupe", Dedupe.schema, [("keys", Value.list Varr.nil)]⟩ ∧
    Verb.get ⟨"dedupe", Dedupe.schema, [("keys", Value.list Varr.nil)]⟩ "keys" =
      Value.list Varr.nil :=
  ⟨rfl, rfl⟩

/-- Counterexample to C10 as stated: the `Verbs` registry of the source
lists 24 entries (count through except), not 23. -/
theorem claim10_counterexample : Verbs.length = 24 ∧ (24 : Nat) ≠ 23 :=
  ⟨rfl, by decide⟩

/-- C10 (amended): the registry omits `reify` even though the `Reify`
constructor is exported, so a reify verb constructs and object-serializes
but `Verb.from` on its serialized form fails with the unknown-verb error;
and `Verb.from` can succeed for exactly the 24 names present in the
registry. -/
theorem claim10_reify_not_registered :
    Reify.new [] = .ok ⟨"reify", [], []⟩ ∧
    Verb.toObject ⟨"reify", [], []⟩ = .obj (.cons "verb" (.str "reify") .nil) ∧
    Verb.from (.obj (.cons "verb" (.str "reify") .nil)) = .error .unknownVerb ∧
    verbsFind "reify" = none ∧
    Verbs.length = 24 ∧
    (Verbs.all (fun entry => (Verb.from (.obj (.cons "verb" (.str entry.1) .nil))).isOk)) = true :=
  ⟨rfl, rfl, rfl, rfl, rfl, rfl⟩

end ArqueroQuery
